import Mathlib

/-!
Verification of `table` (mccoyst/table): row-to-struct decoding.

Shallow embedding of `src/table.go`.  The package decodes rows of text
fields (from a CSV-like `FieldReader`) into the exported fields of a Go
struct, using a registry `Modify` that maps `reflect.Kind`s to conversion
functions.

Modelling decisions (all noted next to the relevant definition):
* Go machine integers are modelled as `Int`/`Nat`; `strconv.ParseInt` /
  `ParseUint` are modelled exactly for base 10 (the only base the code
  uses), including their clamp-on-range-error and zero-on-bad-text
  behaviour.  `strconv.IntSize` is taken to be 64 (64-bit platform).
* `strconv.ParseFloat` is modelled as exact decimal parsing into `Rat`
  (grammar: sign, digits, optional fraction, optional exponent).  Binary
  rounding, hexadecimal floats, underscores and the inf/nan spellings are
  abstracted away; no verified claim depends on the numeric result of a
  float parse, only on the fact that the conversion function writes its
  result unconditionally.
* Go `reflect` panics are deterministic and are modelled as an explicit
  `Outcome.panicked` result.
* The `FieldReader` is modelled as a pure stream `Nat → Except StreamErr
  (List String)` together with a cursor counting the rows consumed so far;
  one `Read()` call returns the row at the cursor and advances it by one.
* Of `reflect.Kind` we model every kind registered in `defaultMods` plus
  `complex64` as a representative unregistered kind (the one the
  repository's own tests use); the decoder treats kinds opaquely, so
  nothing is lost for kinds outside the model.
-/

namespace Table

/-- The subset of `reflect.Kind` the model carries: the fourteen kinds
registered in `defaultMods` plus `complex64`, the unregistered kind used
by the repository's tests. -/
inductive Kind where
  | kBool
  | kInt
  | kInt8
  | kInt16
  | kInt32
  | kInt64
  | kUint
  | kUint8
  | kUint16
  | kUint32
  | kUint64
  | kFloat32
  | kFloat64
  | kString
  | kComplex64
  deriving DecidableEq, Repr

/-- Model of `reflect.Kind.String()` for the modelled kinds: the name used in the
`DecodeError` payload. -/
def Kind.goName : Kind → String
  | .kBool => "bool"
  | .kInt => "int"
  | .kInt8 => "int8"
  | .kInt16 => "int16"
  | .kInt32 => "int32"
  | .kInt64 => "int64"
  | .kUint => "uint"
  | .kUint8 => "uint8"
  | .kUint16 => "uint16"
  | .kUint32 => "uint32"
  | .kUint64 => "uint64"
  | .kFloat32 => "float32"
  | .kFloat64 => "float64"
  | .kString => "string"
  | .kComplex64 => "complex64"

/-- The two error conditions of `strconv`'s parse functions:
`strconv.ErrSyntax` (here `invalidText`) and `strconv.ErrRange`
(here `outOfRange`). -/
inductive ConvErr where
  | invalidText
  | outOfRange
  deriving DecidableEq, Repr

/-- A Go scalar value a struct field can hold.  Integers are unbounded
(`strconv` only ever stores in-range or clamped values, so the modelled
parse results always fit the declared width); floats are exact rationals
(see the file header). -/
inductive Value where
  | vBool (b : Bool)
  | vInt (n : Int)
  | vUint (n : Nat)
  | vFloat (x : Rat)
  | vString (s : String)
  | vComplex
  deriving DecidableEq, Repr

/-- One struct field as `reflect` sees it: its `Name`, the `Kind` of its
type, whether `CanSet` holds for it (exported fields of an addressable
struct), and its current value. -/
structure Field where
  name : String
  kind : Kind
  settable : Bool
  value : Value
  deriving DecidableEq, Repr

/-- Errors the `FieldReader.Read` can report: `io.EOF` or any other read
failure.  `Decode` returns them verbatim. -/
inductive StreamErr where
  | eof
  | readFailure (msg : String)
  deriving DecidableEq, Repr

/-- Model of `table.RowError`, with the source's field names. -/
structure RowError where
  RowLen : Nat
  StructLen : Nat
  MissingField : String
  deriving DecidableEq, Repr

/-- The errors `Decode` can return: a `RowError`, a `DecodeError`
(carrying the kind name string, as in `type DecodeError string`), or an
error passed through verbatim from the reader. -/
inductive GoError where
  | rowErr (e : RowError)
  | decodeErr (kindName : String)
  | streamErr (e : StreamErr)
  deriving DecidableEq, Repr

/-- The value `interface{}` argument of `Decode`, classified by the shape
that drives the reflection code: the nil interface, a non-pointer scalar,
a struct by value, a pointer to a non-struct, or a pointer to a struct
(whose pointee is the field list). -/
inductive Target where
  | nilTarget
  | scalar (v : Value)
  | structVal (fs : List Field)
  | ptrScalar (v : Value)
  | ptrStruct (fs : List Field)
  deriving DecidableEq, Repr

/-- Result of one `Decode` call: normal return `nil`, an error return, or
a Go runtime panic (from `reflect`), each carrying the target as left by
the call. -/
inductive Outcome where
  | ok (t : Target)
  | err (e : GoError) (t : Target)
  | panicked (msg : String) (t : Target)
  deriving DecidableEq, Repr

/-- Message of the `reflect.Type.Elem` panic raised when `Elem` is called
on a kind without an element type (every non-nil, non-pointer target). -/
def elemPanicMsg : String := "reflect: Elem of invalid type"

/-- Message of the `reflect.Type.NumField` panic raised when the decode
loop runs on a non-struct type (pointer-to-non-struct targets). -/
def numFieldPanicMsg : String := "reflect: NumField of non-struct type"

/-- Type of the functions in the `Modify` registry: Go
`func(*reflect.Value, string) error`.  The function receives the field's
current value and the text, and yields the value left in the field plus
the returned error. -/
def ModFn := Value → String → Value × Option ConvErr

/-! ## Model of the `strconv` functions the code calls -/

/-- Numeric value of a digit list, most significant first, on top of an
accumulator (the fold inside `strconv.ParseUint`). -/
def digitsVal (acc : Nat) (cs : List Char) : Nat :=
  cs.foldl (fun n c => n * 10 + (c.toNat - 48)) acc

/-- The digit loop of `strconv.ParseUint` for base 10: scans characters
left to right; a non-digit yields `(0, ErrSyntax)` immediately, a partial
value exceeding `maxVal` yields `(maxVal, ErrRange)` immediately.  Over
unbounded `Nat` the uint64 cutoff test and the `n1 > maxVal` test of the
Go source collapse into the single comparison used here (for every
`bitSize ≤ 64` they are equivalent; see `strconv/atoi.go`). -/
def parseUintLoop (maxVal : Nat) : List Char → Nat → Nat × Option ConvErr
  | [], n => (n, none)
  | c :: cs, n =>
    if c.isDigit then
      if maxVal < n * 10 + (c.toNat - 48) then (maxVal, some ConvErr.outOfRange)
      else parseUintLoop maxVal cs (n * 10 + (c.toNat - 48))
    else (0, some ConvErr.invalidText)

/-- Model of `strconv.ParseUint(s, 10, bitSize)` on the character list of `s`:
empty input is a syntax error; signs are not permitted (a sign character
fails the digit test in the loop); `maxVal = 2^bitSize - 1`. -/
def parseUintChars (bitSize : Nat) : List Char → Nat × Option ConvErr
  | [] => (0, some ConvErr.invalidText)
  | cs => parseUintLoop (2 ^ bitSize - 1) cs 0

/-- Model of `strconv.ParseUint(s, 10, bitSize)`. -/
def parseUint (s : String) (bitSize : Nat) : Nat × Option ConvErr :=
  parseUintChars bitSize s.data

/-- Model of `strconv.ParseInt(s, 10, bitSize)` on the character list of `s`:
strips one optional sign, runs `ParseUint` at the same `bitSize` on the
rest, returns `(0, ErrSyntax)` for syntax errors, and clamps to
`cutoff-1 = 2^(bitSize-1)-1` resp. `-cutoff` with `ErrRange` when the
magnitude leaves the signed range. -/
def parseIntChars (bitSize : Nat) : List Char → Int × Option ConvErr
  | [] => (0, some ConvErr.invalidText)
  | c :: cs =>
    let signRest : Bool × List Char :=
      if c = '+' then (false, cs)
      else if c = '-' then (true, cs)
      else (false, c :: cs)
    let neg := signRest.1
    let rest := signRest.2
    let unErr : Nat × Option ConvErr := parseUintChars bitSize rest
    match unErr.2 with
    | some ConvErr.invalidText => (0, some ConvErr.invalidText)
    | _ =>
      let un := unErr.1
      let cutoff : Nat := 2 ^ (bitSize - 1)
      if neg = false ∧ cutoff ≤ un then ((cutoff : Int) - 1, some ConvErr.outOfRange)
      else if neg = true ∧ cutoff < un then (-(cutoff : Int), some ConvErr.outOfRange)
      else ((if neg then -(un : Int) else (un : Int)), none)

/-- Model of `strconv.ParseInt(s, 10, bitSize)`. -/
def parseInt (s : String) (bitSize : Nat) : Int × Option ConvErr :=
  parseIntChars bitSize s.data

/-- Model of `strconv.ParseBool`: the twelve canonical spellings; everything else
is `(false, ErrSyntax)`. -/
def parseBool (s : String) : Bool × Option ConvErr :=
  if s = "1" ∨ s = "t" ∨ s = "T" ∨ s = "true" ∨ s = "TRUE" ∨ s = "True" then (true, none)
  else if s = "0" ∨ s = "f" ∨ s = "F" ∨ s = "false" ∨ s = "FALSE" ∨ s = "False" then
    (false, none)
  else (false, some ConvErr.invalidText)

/-- Model of `strconv.ParseFloat(s, bitSize)`: as exact decimal parsing
into `Rat` (see the file header for the abstraction).  `bitSize` is kept
to mirror the call sites; rounding to the given width is not modelled. -/
def parseFloat (s : String) (bitSize : Nat) : Rat × Option ConvErr :=
  let _ := bitSize
  let cs := s.data
  let signRest : Rat × List Char :=
    match cs with
    | '+' :: r => (1, r)
    | '-' :: r => (-1, r)
    | r => (1, r)
  let sgn := signRest.1
  let cs1 := signRest.2
  let ip := cs1.takeWhile Char.isDigit
  let r1 := cs1.dropWhile Char.isDigit
  let fracRest : List Char × List Char :=
    match r1 with
    | '.' :: r => (r.takeWhile Char.isDigit, r.dropWhile Char.isDigit)
    | r => ([], r)
  let fp := fracRest.1
  let r2 := fracRest.2
  if ip.isEmpty && fp.isEmpty then (0, some ConvErr.invalidText)
  else
    let v : Rat := sgn * (digitsVal 0 (ip ++ fp) : Rat) / (10 : Rat) ^ fp.length
    match r2 with
    | [] => (v, none)
    | e :: r3 =>
      if e = 'e' ∨ e = 'E' then
        let esignRest : Int × List Char :=
          match r3 with
          | '+' :: r => (1, r)
          | '-' :: r => (-1, r)
          | r => (1, r)
        let ed := esignRest.2.takeWhile Char.isDigit
        let r5 := esignRest.2.dropWhile Char.isDigit
        if ed.isEmpty ∨ r5.isEmpty = false then (0, some ConvErr.invalidText)
        else (v * (10 : Rat) ^ (esignRest.1 * (digitsVal 0 ed : Int)), none)
      else (0, some ConvErr.invalidText)

/-! ## The conversion functions (`modInt`, `modUint`, `defaultMods`) -/

/-- Model of `table.modInt`: parse, then `SetInt` unconditionally, then return the
error — the write happens even when the parse failed. -/
def modInt (f : String) (bitSize : Nat) : Value × Option ConvErr :=
  ((Value.vInt (parseInt f bitSize).1), (parseInt f bitSize).2)

/-- Model of `table.modUint`: parse, then `SetUint` unconditionally, then return
the error. -/
def modUint (f : String) (bitSize : Nat) : Value × Option ConvErr :=
  ((Value.vUint (parseUint f bitSize).1), (parseUint f bitSize).2)

/-- Entry `defaultMods[reflect.Bool]`: `ParseBool` then unconditional
`SetBool`. -/
def modBool : ModFn := fun _ f => ((Value.vBool (parseBool f).1), (parseBool f).2)

/-- Entry `defaultMods[reflect.Int]` (`strconv.IntSize = 64`). -/
def modIntK : ModFn := fun _ f => modInt f 64

/-- Entry `defaultMods[reflect.Int8]`. -/
def modInt8 : ModFn := fun _ f => modInt f 8

/-- Entry `defaultMods[reflect.Int16]`. -/
def modInt16 : ModFn := fun _ f => modInt f 16

/-- Entry `defaultMods[reflect.Int32]`. -/
def modInt32 : ModFn := fun _ f => modInt f 32

/-- Entry `defaultMods[reflect.Int64]`. -/
def modInt64 : ModFn := fun _ f => modInt f 64

/-- Entry `defaultMods[reflect.Uint]` (`strconv.IntSize = 64`). -/
def modUintK : ModFn := fun _ f => modUint f 64

/-- Entry `defaultMods[reflect.Uint8]`. -/
def modUint8 : ModFn := fun _ f => modUint f 8

/-- Entry `defaultMods[reflect.Uint16]`. -/
def modUint16 : ModFn := fun _ f => modUint f 16

/-- Entry `defaultMods[reflect.Uint32]`. -/
def modUint32 : ModFn := fun _ f => modUint f 32

/-- Entry `defaultMods[reflect.Uint64]`. -/
def modUint64 : ModFn := fun _ f => modUint f 64

/-- Entry `defaultMods[reflect.Float32]`: `ParseFloat(f, 32)` then
unconditional `SetFloat`. -/
def modFloat32 : ModFn := fun _ f => ((Value.vFloat (parseFloat f 32).1), (parseFloat f 32).2)

/-- Entry `defaultMods[reflect.Float64]`: `ParseFloat(f, 64)` then
unconditional `SetFloat`. -/
def modFloat64 : ModFn := fun _ f => ((Value.vFloat (parseFloat f 64).1), (parseFloat f 64).2)

/-- Entry `defaultMods[reflect.String]`: plain `SetString`, never errs. -/
def modString : ModFn := fun _ f => (Value.vString f, none)

/-- Model of `table.defaultMods` as a finite map `Kind → Option ModFn`: the
fourteen registered kinds; `complex64` (and in the real code every other
kind) is absent. -/
def defaultMods : Kind → Option ModFn
  | .kBool => some modBool
  | .kInt => some modIntK
  | .kInt8 => some modInt8
  | .kInt16 => some modInt16
  | .kInt32 => some modInt32
  | .kInt64 => some modInt64
  | .kUint => some modUintK
  | .kUint8 => some modUint8
  | .kUint16 => some modUint16
  | .kUint32 => some modUint32
  | .kUint64 => some modUint64
  | .kFloat32 => some modFloat32
  | .kFloat64 => some modFloat64
  | .kString => some modString
  | .kComplex64 => none

/-! ## The decode loop and `Decode` -/

/-- The field loop of `Decode` (source lines 104-128), acting on the
pointee's field list with the row cursor `j`.  Returns the field list as
left by the call together with the error, if any:
* a non-settable field is skipped, consuming no row field;
* at a settable field with the cursor past the row's end the loop stops
  with `RowError{len(fields), j, name}`;
* a settable field of unregistered kind stops the loop with
  `DecodeError(kind.String())`;
* otherwise the conversion function runs, its value is written, its error
  is DISCARDED (`m(&fv, fields[j])`, result ignored), and the cursor
  advances;
* after the last field, leftover row fields give
  `RowError{len(fields), j, ""}`. -/
def decodeFields (modify : Kind → Option ModFn) (row : List String) :
    Nat → List Field → List Field × Option GoError
  | j, [] =>
    ([], if j < row.length then some (GoError.rowErr ⟨row.length, j, ""⟩) else none)
  | j, f :: fs =>
    if f.settable = false then
      let r := decodeFields modify row j fs
      (f :: r.1, r.2)
    else if row.length ≤ j then
      (f :: fs, some (GoError.rowErr ⟨row.length, j, f.name⟩))
    else
      match modify f.kind with
      | none => (f :: fs, some (GoError.decodeErr f.kind.goName))
      | some m =>
        let r := decodeFields modify row (j + 1) fs
        ({ f with value := (m f.value (row.getD j "")).1 } :: r.1, r.2)

/-- Body of `Decoder.Decode` given the result of the single `Read()` call
(source lines 90-129).  The type guard on line 97 reads
`t == nil || (t.Kind() != reflect.Ptr && t.Elem().Kind() != reflect.Struct)`:
* a nil interface returns `nil`;
* a non-nil non-pointer target evaluates `t.Elem()` on a kind without an
  element type, which panics;
* a pointer to a non-struct passes the guard (first conjunct false) and
  then panics at `t.NumField()` in the loop header;
* only a pointer to a struct runs the field loop. -/
def decode (modify : Kind → Option ModFn) (readRes : Except StreamErr (List String))
    (s : Target) : Outcome :=
  match readRes with
  | .error e => .err (.streamErr e) s
  | .ok row =>
    match s with
    | .nilTarget => .ok s
    | .scalar _ => .panicked elemPanicMsg s
    | .structVal _ => .panicked elemPanicMsg s
    | .ptrScalar _ => .panicked numFieldPanicMsg s
    | .ptrStruct fs =>
      match decodeFields modify row 0 fs with
      | (fs', none) => .ok (.ptrStruct fs')
      | (fs', some e) => .err e (.ptrStruct fs')

/-- Model of `table.Decoder`: the `Modify` registry plus the `FieldReader`,
modelled as a pure stream of read results and a cursor for the rows
consumed so far. -/
structure Decoder where
  Modify : Kind → Option ModFn
  r : Nat → Except StreamErr (List String)
  pos : Nat

/-- Model of `table.NewDecoder`: installs `defaultMods` and the reader, with no
rows consumed yet. -/
def NewDecoder (r : Nat → Except StreamErr (List String)) : Decoder :=
  ⟨defaultMods, r, 0⟩

/-- Model of `Decoder.Decode`: performs the one `Read()` call (consuming exactly
the row at the cursor) and feeds its result to the decode logic. -/
def Decoder.Decode (d : Decoder) (s : Target) : Outcome × Decoder :=
  (decode d.Modify (d.r d.pos) s, { d with pos := d.pos + 1 })

/-! ## Helper notions used by the theorems -/

/-- Number of settable fields of a field list. -/
def settableCount (fs : List Field) : Nat :=
  (fs.filter fun f => f.settable).length

/-- Row cursor position of field `i`: the number of settable fields
strictly before it. -/
def settableBefore (fs : List Field) (i : Nat) : Nat :=
  settableCount (fs.take i)

/-- All settable fields of the list have a registered kind (the
hypothesis of the completed-walk theorems, as a decidable check). -/
def allSettableRegistered (modify : Kind → Option ModFn) (flds : List Field) : Bool :=
  flds.all fun f => !f.settable || (modify f.kind).isSome

/-- Position `i` of the field list survives one conversion step:
vacuously true for absent or non-settable positions; for a settable field
its kind is registered and the conversion function reports no error on
the row field at the field's cursor position. -/
def convAt (modify : Kind → Option ModFn) (row : List String) (flds : List Field)
    (i : Nat) : Bool :=
  match flds.get? i with
  | none => true
  | some f =>
    if f.settable then
      match modify f.kind with
      | none => false
      | some m => (m f.value (row.getD (settableBefore flds i) "")).2.isNone
    else true

/-- Every settable field sitting strictly before the point where the row
runs out has a registered kind (decidable hypothesis of the short-row
theorem). -/
def registeredBelowCut (modify : Kind → Option ModFn) (row : List String)
    (flds : List Field) : Bool :=
  (List.range flds.length).all fun i =>
    match flds.get? i with
    | none => true
    | some f =>
      !f.settable || !(decide (settableBefore flds i < row.length)) ||
        (modify f.kind).isSome

/-- Every settable field strictly before position `i` has a registered
kind (decidable hypothesis of the unregistered-kind theorem). -/
def registeredBefore (modify : Kind → Option ModFn) (flds : List Field) (i : Nat) : Bool :=
  (List.range i).all fun k =>
    match flds.get? k with
    | none => true
    | some g => !g.settable || (modify g.kind).isSome

/-! ## Basic lemmas -/

theorem digitsVal_cons (acc : Nat) (c : Char) (cs : List Char) :
    digitsVal acc (c :: cs) = digitsVal (acc * 10 + (c.toNat - 48)) cs := rfl

theorem digitsVal_le (acc : Nat) (cs : List Char) : acc ≤ digitsVal acc cs := by
  induction cs generalizing acc with
  | nil => exact Nat.le_refl acc
  | cons c cs ih =>
    rw [digitsVal_cons]
    exact Nat.le_trans (by omega) (ih (acc * 10 + (c.toNat - 48)))

/-- The `ParseUint` digit loop on an all-digit input computes the decimal
value when it fits and clamps to `maxVal` with a range error when it does
not. -/
theorem parseUintLoop_digits (maxVal : Nat) (cs : List Char) (acc : Nat)
    (hd : ∀ c ∈ cs, c.isDigit = true) (hacc : acc ≤ maxVal) :
    parseUintLoop maxVal cs acc =
      if digitsVal acc cs ≤ maxVal then (digitsVal acc cs, none)
      else (maxVal, some ConvErr.outOfRange) := by
  induction cs generalizing acc with
  | nil => simp [parseUintLoop, digitsVal, hacc]
  | cons c cs ih =>
    have hc : c.isDigit = true := hd c (List.mem_cons_self c cs)
    rw [digitsVal_cons]
    by_cases h1 : maxVal < acc * 10 + (c.toNat - 48)
    · have h2 : ¬ digitsVal (acc * 10 + (c.toNat - 48)) cs ≤ maxVal := by
        have := digitsVal_le (acc * 10 + (c.toNat - 48)) cs
        omega
      simp [parseUintLoop, hc, h1, h2]
    · have hstep : parseUintLoop maxVal (c :: cs) acc =
          parseUintLoop maxVal cs (acc * 10 + (c.toNat - 48)) := by
        simp [parseUintLoop, hc, h1]
      rw [hstep]
      exact ih (acc * 10 + (c.toNat - 48))
        (fun x hx => hd x (List.mem_cons_of_mem c hx)) (by omega)

theorem settableCount_nil : settableCount [] = 0 := rfl

theorem settableCount_cons (f : Field) (fs : List Field) :
    settableCount (f :: fs) = (if f.settable then 1 else 0) + settableCount fs := by
  simp only [settableCount, List.filter_cons]
  cases h : f.settable <;> simp <;> omega

theorem settableBefore_zero (fs : List Field) : settableBefore fs 0 = 0 := rfl

theorem settableBefore_cons (f : Field) (fs : List Field) (i : Nat) :
    settableBefore (f :: fs) (i + 1) =
      (if f.settable then 1 else 0) + settableBefore fs i := by
  simp only [settableBefore, List.take_succ_cons, settableCount_cons]

/-! ## Unfolding lemmas for the decode loop -/

theorem decodeFields_nil (modify : Kind → Option ModFn) (row : List String) (j : Nat) :
    decodeFields modify row j [] =
      ([], if j < row.length then some (GoError.rowErr ⟨row.length, j, ""⟩) else none) := rfl

theorem decodeFields_cons_skip (modify : Kind → Option ModFn) (row : List String)
    (j : Nat) (f : Field) (fs : List Field) (h : f.settable = false) :
    decodeFields modify row j (f :: fs) =
      (f :: (decodeFields modify row j fs).1, (decodeFields modify row j fs).2) := by
  simp [decodeFields, h]

theorem decodeFields_cons_noRow (modify : Kind → Option ModFn) (row : List String)
    (j : Nat) (f : Field) (fs : List Field) (h : f.settable = true)
    (h2 : row.length ≤ j) :
    decodeFields modify row j (f :: fs) =
      (f :: fs, some (GoError.rowErr ⟨row.length, j, f.name⟩)) := by
  simp [decodeFields, h, h2]

theorem decodeFields_cons_unreg (modify : Kind → Option ModFn) (row : List String)
    (j : Nat) (f : Field) (fs : List Field) (h : f.settable = true)
    (h2 : j < row.length) (h3 : modify f.kind = none) :
    decodeFields modify row j (f :: fs) =
      (f :: fs, some (GoError.decodeErr f.kind.goName)) := by
  simp [decodeFields, h, Nat.not_le.mpr h2, h3]

theorem decodeFields_cons_conv (modify : Kind → Option ModFn) (row : List String)
    (j : Nat) (f : Field) (fs : List Field) (m : ModFn) (h : f.settable = true)
    (h2 : j < row.length) (h3 : modify f.kind = some m) :
    decodeFields modify row j (f :: fs) =
      ({ f with value := (m f.value (row.getD j "")).1 } ::
         (decodeFields modify row (j + 1) fs).1,
       (decodeFields modify row (j + 1) fs).2) := by
  simp [decodeFields, h, Nat.not_le.mpr h2, h3]

/-! ## Main lemmas about the decode loop -/

/-- When enough row fields are available for every settable field and all
settable kinds are registered, the loop walks the whole list: every
settable field gets the conversion function's value at its cursor
position, every non-settable field is untouched, and the result is `nil`
when the row length matches exactly, or the extra-fields `RowError` when
row fields are left over. -/
theorem decodeFields_complete (modify : Kind → Option ModFn) (row : List String) :
    ∀ (flds : List Field) (j : Nat),
      j + settableCount flds ≤ row.length →
      (∀ i f, flds.get? i = some f → f.settable = true → (modify f.kind).isSome = true) →
      ∃ flds',
        decodeFields modify row j flds =
          (flds', if j + settableCount flds < row.length
                  then some (GoError.rowErr ⟨row.length, j + settableCount flds, ""⟩)
                  else none) ∧
        flds'.length = flds.length ∧
        ∀ i f, flds.get? i = some f →
          (f.settable = false → flds'.get? i = some f) ∧
          (f.settable = true → ∀ m, modify f.kind = some m →
            flds'.get? i =
              some { f with value :=
                       (m f.value (row.getD (j + settableBefore flds i) "")).1 }) := by
  intro flds
  induction flds with
  | nil =>
    intro j _ _
    refine ⟨[], by simp [decodeFields_nil, settableCount], rfl, ?_⟩
    intro i f hf
    simp [List.get?_nil] at hf
  | cons f fs ih =>
    intro j hle hreg
    by_cases hs : f.settable = true
    · have hcount : settableCount (f :: fs) = 1 + settableCount fs := by
        rw [settableCount_cons, hs]; simp
      rw [hcount] at hle
      have hj : j < row.length := by omega
      have hm0 : (modify f.kind).isSome = true := hreg 0 f rfl hs
      obtain ⟨m, hm⟩ := Option.isSome_iff_exists.mp hm0
      obtain ⟨fs', hdf, hlen, hchar⟩ :=
        ih (j + 1) (by omega) (fun i g hg hgs => hreg (i + 1) g (by simpa using hg) hgs)
      have harith : j + 1 + settableCount fs = j + settableCount (f :: fs) := by
        rw [hcount]; omega
      rw [harith] at hdf
      refine ⟨{ f with value := (m f.value (row.getD j "")).1 } :: fs', ?_,
        by simp [hlen], ?_⟩
      · rw [decodeFields_cons_conv modify row j f fs m hs hj hm, hdf]
      · intro i g hg
        cases i with
        | zero =>
          simp only [List.get?_cons_zero, Option.some.injEq] at hg
          subst hg
          constructor
          · intro hgf; rw [hgf] at hs; cases hs
          · intro _ m' hm'
            rw [hm] at hm'
            injection hm' with hm''
            subst hm''
            simp [settableBefore_zero]
        | succ i =>
          simp only [List.get?_cons_succ] at hg
          have h2 := hchar i g hg
          constructor
          · intro hgf
            simpa using h2.1 hgf
          · intro hgs m' hm'
            have h3 := h2.2 hgs m' hm'
            have heq : j + 1 + settableBefore fs i = j + settableBefore (f :: fs) (i + 1) := by
              rw [settableBefore_cons, hs]; simp; omega
            rw [← heq]
            simpa using h3
    · have hs' : f.settable = false := by revert hs; cases f.settable <;> simp
      have hcount : settableCount (f :: fs) = settableCount fs := by
        rw [settableCount_cons, hs']; simp
      rw [hcount] at hle
      obtain ⟨fs', hdf, hlen, hchar⟩ :=
        ih j (by omega) (fun i g hg hgs => hreg (i + 1) g (by simpa using hg) hgs)
      refine ⟨f :: fs', ?_, by simp [hlen], ?_⟩
      · rw [decodeFields_cons_skip modify row j f fs hs', hdf, hcount]
      · intro i g hg
        cases i with
        | zero =>
          simp only [List.get?_cons_zero, Option.some.injEq] at hg
          subst hg
          refine ⟨fun _ => rfl, fun hgs => ?_⟩
          rw [hgs] at hs'; cases hs'
        | succ i =>
          simp only [List.get?_cons_succ] at hg
          have h2 := hchar i g hg
          refine ⟨fun hgf => by simpa using h2.1 hgf, fun hgs m' hm' => ?_⟩
          have h3 := h2.2 hgs m' hm'
          have heq : j + settableBefore fs i = j + settableBefore (f :: fs) (i + 1) := by
            rw [settableBefore_cons, hs']; simp
          rw [← heq]
          simpa using h3

/-- When the row runs out before the settable fields do (and every
settable field reached while row fields remain has a registered kind),
the loop stops at the first settable field whose cursor position equals
the row length, with `RowError{len(row), len(row), that field's name}`. -/
theorem decodeFields_short (modify : Kind → Option ModFn) (row : List String) :
    ∀ (flds : List Field) (j : Nat),
      j ≤ row.length →
      (∀ i f, flds.get? i = some f → f.settable = true →
        j + settableBefore flds i < row.length → (modify f.kind).isSome = true) →
      ∀ fmiss, ((flds.filter fun f => f.settable).get? (row.length - j) = some fmiss) →
      ∃ flds',
        decodeFields modify row j flds =
          (flds', some (GoError.rowErr ⟨row.length, row.length, fmiss.name⟩)) := by
  intro flds
  induction flds with
  | nil =>
    intro j _ _ fmiss hmiss
    simp [List.get?_nil] at hmiss
  | cons f fs ih =>
    intro j hj hreg fmiss hmiss
    by_cases hs : f.settable = true
    · rw [List.filter_cons, if_pos (by simp [hs])] at hmiss
      by_cases hjl : j < row.length
      · have hm0 : (modify f.kind).isSome = true := by
          apply hreg 0 f rfl hs
          rw [settableBefore_zero]; omega
        obtain ⟨m, hm⟩ := Option.isSome_iff_exists.mp hm0
        have hsub : row.length - j = (row.length - (j + 1)) + 1 := by omega
        rw [hsub, List.get?_cons_succ] at hmiss
        obtain ⟨fs', hdf⟩ := ih (j + 1) (by omega)
          (fun i g hg hgs hcur => by
            apply hreg (i + 1) g (by simpa using hg) hgs
            rw [settableBefore_cons, hs] at *
            simp only [if_pos] at *
            omega) fmiss hmiss
        exact ⟨_, by rw [decodeFields_cons_conv modify row j f fs m hs hjl hm, hdf]⟩
      · have hj' : j = row.length := by omega
        have hz : row.length - j = 0 := by omega
        rw [hz, List.get?_cons_zero] at hmiss
        injection hmiss with hmiss
        subst hmiss
        refine ⟨f :: fs, ?_⟩
        rw [decodeFields_cons_noRow modify row j f fs hs (by omega), hj']
    · have hs' : f.settable = false := by revert hs; cases f.settable <;> simp
      rw [List.filter_cons, if_neg (by simp [hs'])] at hmiss
      obtain ⟨fs', hdf⟩ := ih j hj
        (fun i g hg hgs hcur => by
          apply hreg (i + 1) g (by simpa using hg) hgs
          rw [settableBefore_cons, hs']
          simpa using hcur) fmiss hmiss
      exact ⟨_, by rw [decodeFields_cons_skip modify row j f fs hs', hdf]⟩

/-- When field `i` is settable with an unregistered kind, every earlier
settable field is registered, and the cursor has not run out when field
`i` is reached, the loop stops there with
`DecodeError(kind.String())`; the fields before `i` keep their converted
values and everything from `i` on is untouched. -/
theorem decodeFields_unreg (modify : Kind → Option ModFn) (row : List String) :
    ∀ (flds : List Field) (j i : Nat) (f : Field),
      flds.get? i = some f → f.settable = true → modify f.kind = none →
      (∀ k g, k < i → flds.get? k = some g → g.settable = true →
        (modify g.kind).isSome = true) →
      j + settableBefore flds i < row.length →
      ∃ flds',
        decodeFields modify row j flds = (flds', some (GoError.decodeErr f.kind.goName)) ∧
        flds'.length = flds.length ∧
        (∀ k g, flds.get? k = some g → g.settable = false ∨ i ≤ k →
          flds'.get? k = some g) ∧
        (∀ k g m, k < i → flds.get? k = some g → g.settable = true →
          modify g.kind = some m →
          flds'.get? k =
            some { g with value := (m g.value (row.getD (j + settableBefore flds k) "")).1 }) := by
  intro flds
  induction flds with
  | nil =>
    intro j i f hf
    simp [List.get?_nil] at hf
  | cons f0 fs ih =>
    intro j i f hf hfs hfk hfirst hcur
    cases i with
    | zero =>
      simp only [List.get?_cons_zero, Option.some.injEq] at hf
      subst hf
      rw [settableBefore_zero] at hcur
      refine ⟨f0 :: fs, ?_, rfl, ?_, ?_⟩
      · rw [decodeFields_cons_unreg modify row j f0 fs hfs (by omega) hfk]
      · intro k g hg _; exact hg
      · intro k g m hk; omega
    | succ i =>
      simp only [List.get?_cons_succ] at hf
      by_cases hs : f0.settable = true
      · have hcur' : j + 1 + settableBefore fs i < row.length := by
          rw [settableBefore_cons, hs] at hcur
          simp only [if_pos] at hcur
          omega
        have hj : j < row.length := by omega
        have hm0 : (modify f0.kind).isSome = true := hfirst 0 f0 (by omega) rfl hs
        obtain ⟨m0, hm⟩ := Option.isSome_iff_exists.mp hm0
        obtain ⟨fs', hdf, hlen, hun, hwr⟩ :=
          ih (j + 1) i f hf hfs hfk
            (fun k g hk hg hgs => hfirst (k + 1) g (by omega) (by simpa using hg) hgs)
            hcur'
        refine ⟨{ f0 with value := (m0 f0.value (row.getD j "")).1 } :: fs', ?_,
          by simp [hlen], ?_, ?_⟩
        · rw [decodeFields_cons_conv modify row j f0 fs m0 hs hj hm, hdf]
        · intro k g hg hcase
          cases k with
          | zero =>
            simp only [List.get?_cons_zero, Option.some.injEq] at hg
            subst hg
            rcases hcase with h | h
            · rw [h] at hs; cases hs
            · omega
          | succ k =>
            simp only [List.get?_cons_succ] at hg ⊢
            apply hun k g hg
            rcases hcase with h | h
            · exact Or.inl h
            · exact Or.inr (by omega)
        · intro k g m hk hg hgs hgm
          cases k with
          | zero =>
            simp only [List.get?_cons_zero, Option.some.injEq] at hg
            subst hg
            rw [hm] at hgm
            injection hgm with h
            subst h
            simp [settableBefore_zero]
          | succ k =>
            simp only [List.get?_cons_succ] at hg ⊢
            have h3 := hwr k g m (by omega) hg hgs hgm
            have heq : j + 1 + settableBefore fs k = j + settableBefore (f0 :: fs) (k + 1) := by
              rw [settableBefore_cons, hs]; simp; omega
            rw [← heq]
            exact h3
      · have hs' : f0.settable = false := by revert hs; cases f0.settable <;> simp
        have hcur' : j + settableBefore fs i < row.length := by
          rw [settableBefore_cons, hs'] at hcur
          simpa using hcur
        obtain ⟨fs', hdf, hlen, hun, hwr⟩ :=
          ih j i f hf hfs hfk
            (fun k g hk hg hgs => hfirst (k + 1) g (by omega) (by simpa using hg) hgs)
            hcur'
        refine ⟨f0 :: fs', ?_, by simp [hlen], ?_, ?_⟩
        · rw [decodeFields_cons_skip modify row j f0 fs hs', hdf]
        · intro k g hg hcase
          cases k with
          | zero =>
            simp only [List.get?_cons_zero, Option.some.injEq] at hg
            subst hg
            rfl
          | succ k =>
            simp only [List.get?_cons_succ] at hg ⊢
            apply hun k g hg
            rcases hcase with h | h
            · exact Or.inl h
            · exact Or.inr (by omega)
        · intro k g m hk hg hgs hgm
          cases k with
          | zero =>
            simp only [List.get?_cons_zero, Option.some.injEq] at hg
            subst hg
            rw [hgs] at hs'; cases hs'
          | succ k =>
            simp only [List.get?_cons_succ] at hg ⊢
            have h3 := hwr k g m (by omega) hg hgs hgm
            have heq : j + settableBefore fs k = j + settableBefore (f0 :: fs) (k + 1) := by
              rw [settableBefore_cons, hs']; simp
            rw [← heq]
            exact h3

/-! ## Bridges from the decidable hypothesis forms -/

theorem allSettableRegistered_spec (modify : Kind → Option ModFn) (flds : List Field)
    (h : allSettableRegistered modify flds = true) :
    ∀ i f, flds.get? i = some f → f.settable = true → (modify f.kind).isSome = true := by
  intro i f hf hs
  have hmem : f ∈ flds := List.get?_mem hf
  have h2 := List.all_eq_true.mp h f hmem
  simp only [hs, Bool.not_true, Bool.false_or] at h2
  exact h2

theorem convAt_registered (modify : Kind → Option ModFn) (row : List String)
    (flds : List Field) (h : ∀ i, i < flds.length → convAt modify row flds i = true) :
    ∀ i f, flds.get? i = some f → f.settable = true → (modify f.kind).isSome = true := by
  intro i f hf hs
  have hi : i < flds.length := by
    by_contra hc
    rw [List.get?_eq_none.mpr (by omega)] at hf
    cases hf
  have h2 := h i hi
  unfold convAt at h2
  rw [hf] at h2
  simp only [hs, if_true] at h2
  cases hmk : modify f.kind with
  | none => rw [hmk] at h2; cases h2
  | some m => simp

theorem registeredBelowCut_spec (modify : Kind → Option ModFn) (row : List String)
    (flds : List Field) (h : registeredBelowCut modify row flds = true) :
    ∀ i f, flds.get? i = some f → f.settable = true →
      settableBefore flds i < row.length → (modify f.kind).isSome = true := by
  intro i f hf hs hcur
  have hi : i < flds.length := by
    by_contra hc
    rw [List.get?_eq_none.mpr (by omega)] at hf
    cases hf
  have h2 := List.all_eq_true.mp h i (List.mem_range.mpr hi)
  simp only at h2
  rw [hf] at h2
  simp only [hs, hcur, Bool.not_true, Bool.false_or, decide_True, Bool.not_false] at h2
  exact h2

theorem registeredBefore_spec (modify : Kind → Option ModFn) (flds : List Field) (i : Nat)
    (h : registeredBefore modify flds i = true) :
    ∀ k g, k < i → flds.get? k = some g → g.settable = true →
      (modify g.kind).isSome = true := by
  intro k g hk hg hgs
  have h2 := List.all_eq_true.mp h k (List.mem_range.mpr hk)
  simp only at h2
  rw [hg] at h2
  simp only [hgs, Bool.not_true, Bool.false_or] at h2
  exact h2

/-- Discriminator: is the outcome a `RowError` return? -/
def isRowErrOutcome : Outcome → Bool
  | .err (.rowErr _) _ => true
  | _ => false

/-- Discriminator: is the outcome a `DecodeError` return? -/
def isDecodeErrOutcome : Outcome → Bool
  | .err (.decodeErr _) _ => true
  | _ => false

/-- Evaluation of `decode` on a successful read and a pointer-to-struct target is the
field loop followed by the ok/err dispatch. -/
theorem decode_ptrStruct (modify : Kind → Option ModFn) (row : List String)
    (flds : List Field) :
    decode modify (Except.ok row) (Target.ptrStruct flds) =
      match decodeFields modify row 0 flds with
      | (fs', none) => Outcome.ok (Target.ptrStruct fs')
      | (fs', some e) => Outcome.err e (Target.ptrStruct fs') := rfl

/-! ## The claims -/

/-- C1 (evaluation at the failing inputs): the claim — `Decode` on every
non-pointer-to-struct target returns `nil` and leaves the target
unmodified — matches `Decode`'s doc comment and `TestDecodeNonstruct`,
but not the code.  Of the non-struct targets only the nil interface gets
the documented no-op; a pointer to a non-struct (the test's `&x` with
`var x int`) slips past the guard on line 97 (its first conjunct
`t.Kind() != reflect.Ptr` is false, so the short-circuited `&&` skips the
struct check) and panics at `t.NumField()`, and any non-nil non-pointer
target panics already inside the guard at `t.Elem()`. -/
theorem decode_nonpointer_target_eval :
    decode defaultMods (Except.ok ["1", "blonde"]) Target.nilTarget =
      Outcome.ok Target.nilTarget ∧
    decode defaultMods (Except.ok ["1", "blonde"]) (Target.ptrScalar (Value.vInt 0)) =
      Outcome.panicked numFieldPanicMsg (Target.ptrScalar (Value.vInt 0)) ∧
    decode defaultMods (Except.ok ["1", "blonde"]) (Target.scalar (Value.vInt 5)) =
      Outcome.panicked elemPanicMsg (Target.scalar (Value.vInt 5)) ∧
    decode defaultMods (Except.ok ["1", "blonde"])
        (Target.structVal [⟨"A", Kind.kInt, false, Value.vInt 3⟩]) =
      Outcome.panicked elemPanicMsg
        (Target.structVal [⟨"A", Kind.kInt, false, Value.vInt 3⟩]) :=
  ⟨rfl, rfl, rfl, rfl⟩

/-- C7: every conversion function in the default registry computes its
result from the text alone — the previous field value never survives, so
the write to the field happens even when the parse fails (the
"write-then-maybe-fail" quirk: `SetInt`/`SetUint`/`SetBool`/`SetFloat`/
`SetString` are called unconditionally, before the error is returned). -/
theorem defaultMods_write_regardless (k : Kind) (m : ModFn)
    (h : defaultMods k = some m) (v w : Value) (s : String) : m v s = m w s := by
  cases k <;> simp only [defaultMods] at h <;>
    first
      | exact Option.noConfusion h
      | (injection h with h1; subst h1; rfl)

/-- Witness for C7: at the failing parse `"999"` for an 8-bit signed
field, the previous value (7) is overwritten with the clamped best-effort
value 127 alongside the range error. -/
theorem defaultMods_write_regardless_witness :
    modInt8 (Value.vInt 7) "999" = modInt8 (Value.vInt 0) "999" ∧
    modInt8 (Value.vInt 7) "999" = (Value.vInt 127, some ConvErr.outOfRange) :=
  ⟨defaultMods_write_regardless Kind.kInt8 modInt8 rfl (Value.vInt 7) (Value.vInt 0) "999",
   by decide⟩

/-- C8: whatever error the reader's `Read` reports (including `io.EOF`)
is returned by `Decode` as-is, before the target is examined, and the
target is left exactly as it was. -/
theorem decode_propagates_read_errors (modify : Kind → Option ModFn) (e : StreamErr)
    (s : Target) :
    decode modify (Except.error e) s = Outcome.err (GoError.streamErr e) s := rfl

/-- C10: every `Decode` call consumes exactly one row: the reader cursor
advances by one on every path (including the nil no-op, the reflect
panics, and every error return), the reader and registry are otherwise
untouched, and the outcome depends only on the single row at the current
cursor — rows at any other position are never read. -/
theorem decode_reads_exactly_once (d : Decoder) (s : Target) :
    (d.Decode s).2.pos = d.pos + 1 ∧
    (d.Decode s).2.r = d.r ∧
    (d.Decode s).2.Modify = d.Modify ∧
    ∀ d' : Decoder, d'.Modify = d.Modify → d'.pos = d.pos → d'.r d'.pos = d.r d.pos →
      (d'.Decode s).1 = (d.Decode s).1 := by
  refine ⟨rfl, rfl, rfl, ?_⟩
  intro d' hM hp hr
  simp only [Decoder.Decode]
  rw [hM, hr]

/-- A reader whose stream has one row and then reports end of stream. -/
def sampleReader : Nat → Except StreamErr (List String) :=
  fun n => if n = 0 then Except.ok ["1"] else Except.error StreamErr.eof

/-- A reader agreeing with `sampleReader` at position 0 only. -/
def sampleReader2 : Nat → Except StreamErr (List String) :=
  fun n => if n = 0 then Except.ok ["1"] else Except.ok ["x", "y"]

/-- Witness for C10: concrete decoders differing everywhere but at the
current cursor produce the same outcome, and the cursor advances by
one. -/
theorem decode_reads_exactly_once_witness :
    ((Decoder.Decode ⟨defaultMods, sampleReader, 0⟩ Target.nilTarget).2.pos = 0 + 1) ∧
    (Decoder.Decode ⟨defaultMods, sampleReader2, 0⟩ Target.nilTarget).1 =
      (Decoder.Decode ⟨defaultMods, sampleReader, 0⟩ Target.nilTarget).1 := by
  have h := decode_reads_exactly_once ⟨defaultMods, sampleReader, 0⟩ Target.nilTarget
  exact ⟨h.1, h.2.2.2 ⟨defaultMods, sampleReader2, 0⟩ rfl rfl rfl⟩

/-- C2: when the row has exactly as many text fields as the struct has
settable fields and every settable position converts without error,
`Decode` returns `nil`, each settable field holds the conversion
function's value for the row field at its cursor position (declaration
order), and every non-settable field is untouched. -/
theorem decode_exact_row_ok (modify : Kind → Option ModFn) (flds : List Field)
    (row : List String)
    (hN : row.length = settableCount flds)
    (hconv : ∀ i, i < flds.length → convAt modify row flds i = true) :
    ∃ flds',
      decode modify (Except.ok row) (Target.ptrStruct flds) =
        Outcome.ok (Target.ptrStruct flds') ∧
      flds'.length = flds.length ∧
      ∀ i f, flds.get? i = some f →
        (f.settable = false → flds'.get? i = some f) ∧
        (f.settable = true → ∀ m, modify f.kind = some m →
          flds'.get? i =
            some { f with value :=
                     (m f.value (row.getD (settableBefore flds i) "")).1 }) := by
  obtain ⟨flds', hdf, hlen, hchar⟩ :=
    decodeFields_complete modify row flds 0 (by omega)
      (convAt_registered modify row flds hconv)
  rw [if_neg (by omega)] at hdf
  refine ⟨flds', ?_, hlen, ?_⟩
  · rw [decode_ptrStruct, hdf]
  · intro i f hf
    simpa using hchar i f hf

/-- Fields of the decoding example in the repository documentation: two
settable fields and a non-settable one. -/
def c2Flds : List Field :=
  [⟨"A", Kind.kInt, true, Value.vInt 0⟩,
   ⟨"b", Kind.kString, false, Value.vString "z"⟩,
   ⟨"C", Kind.kString, true, Value.vString ""⟩]

/-- Witness for C2 at a concrete struct and row. -/
theorem decode_exact_row_ok_witness :
    ∃ flds',
      decode defaultMods (Except.ok ["42", "meow"]) (Target.ptrStruct c2Flds) =
        Outcome.ok (Target.ptrStruct flds') ∧
      flds'.length = c2Flds.length ∧
      ∀ i f, c2Flds.get? i = some f →
        (f.settable = false → flds'.get? i = some f) ∧
        (f.settable = true → ∀ m, defaultMods f.kind = some m →
          flds'.get? i =
            some { f with value :=
                     (m f.value ((["42", "meow"] : List String).getD
                       (settableBefore c2Flds i) "")).1 }) :=
  decode_exact_row_ok defaultMods c2Flds ["42", "meow"] (by decide) (by decide)

/-- The struct `{A complex64; B int; C int}`, all settable: two settable
fields of registered kinds plus a leading one of unregistered kind. -/
def c3Flds : List Field :=
  [⟨"A", Kind.kComplex64, true, Value.vComplex⟩,
   ⟨"B", Kind.kInt, true, Value.vInt 0⟩,
   ⟨"C", Kind.kInt, true, Value.vInt 0⟩]

/-- C3 counterexample: the struct `{A complex64; B int; C int}` (all
settable) has 2 settable fields of registered kinds, and the row `["1"]`
is shorter than that, yet `Decode` returns the `DecodeError` for
`complex64` — not a `RowError` — because the registry lookup for field
`A` happens while row fields are still available, before the row can run
out. -/
theorem short_row_claim_cex :
    ((c3Flds.filter fun f => f.settable && (defaultMods f.kind).isSome).length = 2) ∧
    ((["1"] : List String).length = 1) ∧
    decode defaultMods (Except.ok ["1"]) (Target.ptrStruct c3Flds) =
      Outcome.err (GoError.decodeErr "complex64") (Target.ptrStruct c3Flds) ∧
    isRowErrOutcome (decode defaultMods (Except.ok ["1"]) (Target.ptrStruct c3Flds)) =
      false :=
  ⟨by decide, rfl, by decide, by decide⟩

/-- C3 (amended): for a row shorter than the settable-field count,
provided every settable field whose cursor position lies below the row
length has a registered kind, `Decode` fails with
`RowError{len(row), len(row), name}` where `name` is the first settable
field beyond the matched prefix (the settable field at index `len(row)`
of the settable-field sequence). -/
theorem decode_short_row_rowError (modify : Kind → Option ModFn) (flds : List Field)
    (row : List String) (fmiss : Field)
    (hreg : registeredBelowCut modify row flds = true)
    (hmiss : (flds.filter fun f => f.settable).get? row.length = some fmiss) :
    ∃ flds',
      decode modify (Except.ok row) (Target.ptrStruct flds) =
        Outcome.err (GoError.rowErr ⟨row.length, row.length, fmiss.name⟩)
          (Target.ptrStruct flds') := by
  have hreg' := registeredBelowCut_spec modify row flds hreg
  obtain ⟨flds', hdf⟩ :=
    decodeFields_short modify row flds 0 (by omega)
      (fun i f hf hs hcur => hreg' i f hf hs (by simpa using hcur))
      fmiss (by simpa using hmiss)
  exact ⟨flds', by rw [decode_ptrStruct, hdf]⟩

/-- Fields of `TestShortRow`: `{A int; B string; C int}`, all settable. -/
def c3WFlds : List Field :=
  [⟨"A", Kind.kInt, true, Value.vInt 0⟩,
   ⟨"B", Kind.kString, true, Value.vString ""⟩,
   ⟨"C", Kind.kInt, true, Value.vInt 0⟩]

/-- Witness for the amended C3 at the `TestShortRow` scenario:
row `["1","blonde"]` yields `RowError{2, 2, "C"}`. -/
theorem decode_short_row_rowError_witness :
    ∃ flds',
      decode defaultMods (Except.ok ["1", "blonde"]) (Target.ptrStruct c3WFlds) =
        Outcome.err (GoError.rowErr ⟨2, 2, "C"⟩) (Target.ptrStruct flds') :=
  decode_short_row_rowError defaultMods c3WFlds ["1", "blonde"]
    ⟨"C", Kind.kInt, true, Value.vInt 0⟩ (by decide) (by decide)

/-- C4: when every settable field's kind is registered and the row is
strictly longer than the settable-field count (including a struct with
no settable fields at all against a non-empty row), `Decode` fails with
`RowError{len(row), settable-field count, ""}`. -/
theorem decode_long_row_rowError (modify : Kind → Option ModFn) (flds : List Field)
    (row : List String)
    (hreg : allSettableRegistered modify flds = true)
    (hlen : settableCount flds < row.length) :
    ∃ flds',
      decode modify (Except.ok row) (Target.ptrStruct flds) =
        Outcome.err (GoError.rowErr ⟨row.length, settableCount flds, ""⟩)
          (Target.ptrStruct flds') := by
  obtain ⟨flds', hdf, _, _⟩ :=
    decodeFields_complete modify row flds 0 (by omega)
      (allSettableRegistered_spec modify flds hreg)
  rw [if_pos (by omega), Nat.zero_add] at hdf
  exact ⟨flds', by rw [decode_ptrStruct, hdf]⟩

/-- A struct with a single non-settable field: zero settable fields. -/
def c4Flds : List Field := [⟨"c", Kind.kInt, false, Value.vInt 0⟩]

/-- Witness for C4 at the edge case the claim singles out: zero settable
fields against a non-empty row. -/
theorem decode_long_row_rowError_witness :
    ∃ flds',
      decode defaultMods (Except.ok ["1"]) (Target.ptrStruct c4Flds) =
        Outcome.err (GoError.rowErr ⟨1, settableCount c4Flds, ""⟩)
          (Target.ptrStruct flds') :=
  decode_long_row_rowError defaultMods c4Flds ["1"] (by decide) (by decide)

/-- The struct `{A complex64}` with its single field settable. -/
def c5Flds : List Field := [⟨"A", Kind.kComplex64, true, Value.vComplex⟩]

/-- C5 counterexample: the struct `{A complex64}` (settable, kind
unregistered) against the empty row gives `RowError{0, 0, "A"}`, not a
`DecodeError` naming `complex64`: the row-exhaustion check on line 112
precedes the registry lookup on line 116, so "regardless of the row's
length" fails. -/
theorem unregistered_kind_claim_cex :
    (defaultMods Kind.kComplex64).isNone = true ∧
    decode defaultMods (Except.ok ([] : List String)) (Target.ptrStruct c5Flds) =
      Outcome.err (GoError.rowErr ⟨0, 0, "A"⟩) (Target.ptrStruct c5Flds) ∧
    isDecodeErrOutcome
      (decode defaultMods (Except.ok ([] : List String)) (Target.ptrStruct c5Flds)) =
      false :=
  ⟨rfl, by decide, by decide⟩

/-- C5 (amended): when the first settable field of unregistered kind is
reached while row fields are still available (its cursor position is
below the row length, and every earlier settable field is registered),
`Decode` fails with the `DecodeError` naming that kind — whatever the
row's total length otherwise — and the fields converted before it remain
written while everything from it on is untouched. -/
theorem decode_unregistered_kind_error (modify : Kind → Option ModFn) (flds : List Field)
    (row : List String) (i : Nat) (f : Field)
    (hf : flds.get? i = some f) (hs : f.settable = true)
    (hunreg : modify f.kind = none)
    (hfirst : registeredBefore modify flds i = true)
    (hcur : settableBefore flds i < row.length) :
    ∃ flds',
      decode modify (Except.ok row) (Target.ptrStruct flds) =
        Outcome.err (GoError.decodeErr f.kind.goName) (Target.ptrStruct flds') ∧
      flds'.length = flds.length ∧
      (∀ k g, flds.get? k = some g → g.settable = false ∨ i ≤ k →
        flds'.get? k = some g) ∧
      (∀ k g m, k < i → flds.get? k = some g → g.settable = true →
        modify g.kind = some m →
        flds'.get? k =
          some { g with value :=
                   (m g.value (row.getD (settableBefore flds k) "")).1 }) := by
  obtain ⟨flds', hdf, hlen, hun, hwr⟩ :=
    decodeFields_unreg modify row flds 0 i f hf hs hunreg
      (registeredBefore_spec modify flds i hfirst) (by omega)
  refine ⟨flds', by rw [decode_ptrStruct, hdf], hlen, hun, ?_⟩
  intro k g m hk hg hgs hgm
  simpa using hwr k g m hk hg hgs hgm

/-- Fields of `TestDecodeError`: `{A int; B complex64}`, both settable. -/
def c5WFlds : List Field :=
  [⟨"A", Kind.kInt, true, Value.vInt 0⟩,
   ⟨"B", Kind.kComplex64, true, Value.vComplex⟩]

/-- Witness for the amended C5 at the `TestDecodeError` scenario. -/
theorem decode_unregistered_kind_error_witness :
    ∃ flds',
      decode defaultMods (Except.ok ["1", "blonde"]) (Target.ptrStruct c5WFlds) =
        Outcome.err (GoError.decodeErr "complex64") (Target.ptrStruct flds') ∧
      flds'.length = c5WFlds.length ∧
      (∀ k g, c5WFlds.get? k = some g → g.settable = false ∨ 1 ≤ k →
        flds'.get? k = some g) ∧
      (∀ k g m, k < 1 → c5WFlds.get? k = some g → g.settable = true →
        defaultMods g.kind = some m →
        flds'.get? k =
          some { g with value :=
                   (m g.value ((["1", "blonde"] : List String).getD
                     (settableBefore c5WFlds k) "")).1 }) :=
  decode_unregistered_kind_error defaultMods c5WFlds ["1", "blonde"] 1
    ⟨"B", Kind.kComplex64, true, Value.vComplex⟩ rfl rfl rfl (by decide) (by decide)

/-- C6: a matching-shape row with all settable kinds registered decodes
to `nil` with no further condition: the errors the conversion functions
return are discarded by the loop (`m(&fv, fields[j])`, result ignored),
so parse failures never surface. -/
theorem decode_discards_conversion_errors (modify : Kind → Option ModFn)
    (flds : List Field) (row : List String)
    (hN : row.length = settableCount flds)
    (hreg : allSettableRegistered modify flds = true) :
    ∃ flds',
      decode modify (Except.ok row) (Target.ptrStruct flds) =
        Outcome.ok (Target.ptrStruct flds') := by
  obtain ⟨flds', hdf, _, _⟩ :=
    decodeFields_complete modify row flds 0 (by omega)
      (allSettableRegistered_spec modify flds hreg)
  rw [if_neg (by omega)] at hdf
  exact ⟨flds', by rw [decode_ptrStruct, hdf]⟩

/-- A decimal digit is neither sign character. -/
theorem digit_ne_sign (c : Char) (h : c.isDigit = true) : ¬ c = '+' ∧ ¬ c = '-' := by
  constructor <;> intro hc <;> subst hc <;> exact absurd h (by decide)

/-- C9: the fixed-width integer conversions reject every decimal string
whose value leaves the width's range, clamping as `strconv` does: a
signed width-`b` parse of a digit string worth at least `2^(b-1)` yields
the maximum `2^(b-1)-1` with a range error; a negated digit string worth
more than `2^(b-1)` yields the minimum `-2^(b-1)` with a range error;
an unsigned parse rejects any leading minus sign as a syntax error and
any digit string worth more than `2^b-1` with a range error.  Stated for
every width `b ≥ 2`, hence for the widths 8, 16, 32 and 64 the registry
uses. -/
theorem integer_conversions_reject_out_of_range (b : Nat) (hb : 2 ≤ b)
    (ds : List Char) (hne : ds ≠ []) (hd : ∀ c ∈ ds, c.isDigit = true) :
    (2 ^ (b - 1) ≤ digitsVal 0 ds →
      parseInt (String.mk ds) b = ((2 ^ (b - 1) : Int) - 1, some ConvErr.outOfRange)) ∧
    (2 ^ (b - 1) ≤ digitsVal 0 ds →
      parseInt (String.mk ('+' :: ds)) b =
        ((2 ^ (b - 1) : Int) - 1, some ConvErr.outOfRange)) ∧
    (2 ^ (b - 1) < digitsVal 0 ds →
      parseInt (String.mk ('-' :: ds)) b =
        (-(2 ^ (b - 1) : Int), some ConvErr.outOfRange)) ∧
    parseUint (String.mk ('-' :: ds)) b = (0, some ConvErr.invalidText) ∧
    (2 ^ b - 1 < digitsVal 0 ds →
      parseUint (String.mk ds) b = (2 ^ b - 1, some ConvErr.outOfRange)) := by
  obtain ⟨c, cs, rfl⟩ : ∃ c cs, ds = c :: cs := by
    cases ds with
    | nil => exact absurd rfl hne
    | cons c cs => exact ⟨c, cs, rfl⟩
  have hc : c.isDigit = true := hd c (List.mem_cons_self c cs)
  obtain ⟨hp, hm⟩ := digit_ne_sign c hc
  have hloop := parseUintLoop_digits (2 ^ b - 1) (c :: cs) 0 hd (Nat.zero_le _)
  have hx2 : 2 ≤ 2 ^ (b - 1) := by
    calc 2 = 2 ^ 1 := by norm_num
    _ ≤ 2 ^ (b - 1) := Nat.pow_le_pow_right (by norm_num) (by omega)
  have hbb : 2 ^ b = 2 * 2 ^ (b - 1) := by
    conv_lhs => rw [show b = b - 1 + 1 by omega]
    rw [pow_succ]
    ring
  have hPI : parseInt (String.mk (c :: cs)) b = parseIntChars b (c :: cs) := rfl
  have hPIneg : parseInt (String.mk ('-' :: c :: cs)) b =
      parseIntChars b ('-' :: c :: cs) := rfl
  have hPIpos : parseInt (String.mk ('+' :: c :: cs)) b =
      parseIntChars b ('+' :: c :: cs) := rfl
  have hcast : ((2 ^ (b - 1) : Nat) : Int) = (2 ^ (b - 1) : Int) := by push_cast; ring
  refine ⟨?_, ?_, ?_, ?_, ?_⟩
  · intro hcut
    rw [hPI]
    by_cases hle : digitsVal 0 (c :: cs) ≤ 2 ^ b - 1
    · rw [if_pos hle] at hloop
      simp only [parseIntChars, if_neg hp, if_neg hm, parseUintChars, hloop]
      simp [hcut, hcast]
    · rw [if_neg hle] at hloop
      simp only [parseIntChars, if_neg hp, if_neg hm, parseUintChars, hloop]
      have : 2 ^ (b - 1) ≤ 2 ^ b - 1 := by omega
      simp [this, hcast]
  · intro hcut
    rw [hPIpos]
    by_cases hle : digitsVal 0 (c :: cs) ≤ 2 ^ b - 1
    · rw [if_pos hle] at hloop
      simp [parseIntChars, parseUintChars, hloop, hcut, hcast]
    · rw [if_neg hle] at hloop
      have hcl : 2 ^ (b - 1) ≤ 2 ^ b - 1 := by omega
      simp [parseIntChars, parseUintChars, hloop, hcl, hcast]
  · intro hcut
    rw [hPIneg]
    by_cases hle : digitsVal 0 (c :: cs) ≤ 2 ^ b - 1
    · rw [if_pos hle] at hloop
      simp [parseIntChars, parseUintChars, hloop, hcut, hcast]
    · rw [if_neg hle] at hloop
      have hcl : 2 ^ (b - 1) < 2 ^ b - 1 := by omega
      simp [parseIntChars, parseUintChars, hloop, hcl, hcast]
  · simp only [parseUint, parseUintChars, parseUintLoop]
    simp
  · intro hcut
    rw [if_neg (by omega)] at hloop
    show parseUintLoop (2 ^ b - 1) (c :: cs) 0 = _
    exact hloop

/-- Witness for C9 at width 8: `"999"` and `"+999"` clamp to 127 with a
range error, `"-999"` clamps to -128 with a range error, `"-1"` is a
syntax error for the unsigned parse, and `"999"` clamps to 255 with a
range error for the unsigned parse. -/
theorem integer_conversions_reject_out_of_range_witness :
    parseInt (String.mk ['9', '9', '9']) 8 =
      ((2 ^ (8 - 1) : Int) - 1, some ConvErr.outOfRange) ∧
    parseInt (String.mk ['+', '9', '9', '9']) 8 =
      ((2 ^ (8 - 1) : Int) - 1, some ConvErr.outOfRange) ∧
    parseInt (String.mk ['-', '9', '9', '9']) 8 =
      (-(2 ^ (8 - 1) : Int), some ConvErr.outOfRange) ∧
    parseUint (String.mk ['-', '1']) 8 = (0, some ConvErr.invalidText) ∧
    parseUint (String.mk ['9', '9', '9']) 8 =
      (2 ^ 8 - 1, some ConvErr.outOfRange) := by
  have h1 := integer_conversions_reject_out_of_range 8 (by decide) ['9', '9', '9']
    (by decide) (by decide)
  have h2 := integer_conversions_reject_out_of_range 8 (by decide) ['1']
    (by decide) (by decide)
  exact ⟨h1.1 (by decide), h1.2.1 (by decide), h1.2.2.1 (by decide), h2.2.2.2.1,
    h1.2.2.2.2 (by decide)⟩

/-- A single settable int field. -/
def c6Flds : List Field := [⟨"A", Kind.kInt, true, Value.vInt 7⟩]

/-- Witness for C6: the conversion of `"abc"` as an int reports a parse
failure, yet the decode of the one-field struct against `["abc"]`
succeeds. -/
theorem decode_discards_conversion_errors_witness :
    (modIntK (Value.vInt 7) "abc").2 = some ConvErr.invalidText ∧
    ∃ flds',
      decode defaultMods (Except.ok ["abc"]) (Target.ptrStruct c6Flds) =
        Outcome.ok (Target.ptrStruct flds') :=
  ⟨by decide,
   decode_discards_conversion_errors defaultMods c6Flds ["abc"] (by decide) (by decide)⟩

end Table
